import Mathlib

/-!
# zeus-admin: `pkg/api/controllers/user.go`

A shallow embedding of the nine handler methods of `UserController` and the
properties of their response contract.

A handler is a state transformer on a `World`: the persistent state behind
`userService`, the sequence of `userService` calls made so far, and the
sequence of response envelopes written to the `gin.Context` so far.  The
collaborators (`BindAndValidate`, the methods of `userService`) are arbitrary
functions, so every theorem holds for every behaviour they may have.
-/

namespace Zeus

/-! ## Types declared outside `user.go` -/

/-- The types that `user.go` only passes through.  Their declarations live in
the packages `dto`, `model` and `service`; the handlers never look inside. -/
structure Sig where
  /-- persistent state reached through `userService` -/
  Db : Type
  /-- fields of `model.User` other than `Id` -/
  UserFields : Type
  GeneralListDto : Type
  UserCreateDto : Type
  UserEditDto : Type
  UserEditStatusDto : Type
  UserEditPasswordDto : Type
  GeneralDelDto : Type
  /-- first result of `userService.List` -/
  Users : Type
  /-- second result of `userService.List` -/
  Total : Type
  /-- result of `userService.GetAllPermissions` -/
  Permissions : Type
  /-- type of the field `Department` of `dto.UserMoveDepartmentDto` -/
  Department : Type
  /-- payload of a non-nil `error`; `none` stands for `nil` -/
  Failure : Type

/-- The entity `model.User`: the handlers read its field `Id` only. -/
structure User (S : Sig) where
  Id : Int
  fields : S.UserFields

/-- The input `dto.GeneralGetDto`: an integer identifier. -/
structure GeneralGetDto where
  Id : Int
deriving DecidableEq, Repr

/-- The input `dto.UserMoveDepartmentDto`: a comma-joined identifier list and
the target department. -/
structure UserMoveDepartmentDto (S : Sig) where
  Ids : String
  Department : S.Department

/-- The error values named in `user.go`; they are declared elsewhere in the
package `controllers`. -/
inductive ControllerError where
  | ErrNoUser
  | ErrAddFail
  | ErrDelFail
  | ErrEditFail
deriving DecidableEq, Repr

/-- A value stored in a `map[string]interface{}` response payload. -/
inductive Value (S : Sig) where
  | user (data : User S)
  | users (data : S.Users)
  | total (n : S.Total)
  | int (n : Int)
  | permissions (p : S.Permissions)

/-- Modelled from the spec: the three terminal response shapes of section 4.3,
one per helper of the package (`resp`, `ok`, `fail`), whose bodies are not in
`user.go`.  `resp` carries the key/value pairs of its map literal in source
order. -/
inductive Response (S : Sig) where
  | resp (data : List (String × Value S))
  | ok (msg : String)
  | fail (e : ControllerError)

/-- The Go type `[]string`. -/
abbrev StringSlice := List String

/-- One call of a method of `userService`, with its arguments. -/
inductive ServiceCall (S : Sig) where
  | InfoOfId (d : GeneralGetDto)
  | List (d : S.GeneralListDto)
  | Create (d : S.UserCreateDto)
  | Update (d : S.UserEditDto)
  | UpdateStatus (d : S.UserEditStatusDto)
  | UpdatePassword (d : S.UserEditPasswordDto)
  | Delete (d : S.GeneralDelDto)
  | GetAllPermissions (id : String)
  | MoveToAnotherDepartment (ids : StringSlice) (department : S.Department)

/-- Everything a handler can change. -/
structure World (S : Sig) where
  db : S.Db
  /-- calls made on `userService`, oldest first -/
  calls : List (ServiceCall S)
  /-- response envelopes written to the `gin.Context`, oldest first -/
  written : List (Response S)

/-- The collaborator `userService` (`service.UserService`): each method may
read and change the persistent state. -/
structure UserService (S : Sig) where
  InfoOfId : GeneralGetDto → S.Db → User S × S.Db
  List : S.GeneralListDto → S.Db → (S.Users × S.Total) × S.Db
  Create : S.UserCreateDto → S.Db → User S × S.Db
  Update : S.UserEditDto → S.Db → Int × S.Db
  UpdateStatus : S.UserEditStatusDto → S.Db → Int × S.Db
  UpdatePassword : S.UserEditPasswordDto → S.Db → Int × S.Db
  Delete : S.GeneralDelDto → S.Db → Int × S.Db
  GetAllPermissions : String → S.Db → S.Permissions × S.Db
  MoveToAnotherDepartment : StringSlice → S.Department → S.Db → Option S.Failure × S.Db

/-- The method `BindAndValidate` of `BaseController`, applied to a freshly
declared dto of type `α`: it reports whether binding succeeded, yields the
dto as bound, and may itself act on the world (it writes the validation
failure).  Its body is not in `user.go`, so it is an arbitrary function. -/
abbrev Binder (S : Sig) (α : Type) := World S → (Bool × α) × World S

/-! ## Response helpers and service invocation -/

/-- Modelled from the spec: `resp(c, data)` writes the success envelope with
the payload `data`. -/
def resp {S : Sig} (data : List (String × Value S)) : StateM (World S) Unit :=
  modify fun w => { w with written := w.written ++ [Response.resp data] }

/-- Modelled from the spec: `ok(c, msg)` writes the success envelope without
data, with message `msg`. -/
def ok {S : Sig} (msg : String) : StateM (World S) Unit :=
  modify fun w => { w with written := w.written ++ [Response.ok msg] }

/-- Modelled from the spec: `fail(c, e)` writes the failure envelope of the
error `e`. -/
def fail {S : Sig} (e : ControllerError) : StateM (World S) Unit :=
  modify fun w => { w with written := w.written ++ [Response.fail e] }

/-- A call of a `userService` method: it is recorded, and runs on the
persistent state. -/
def invoke {S : Sig} {β : Type} (entry : ServiceCall S) (f : S.Db → β × S.Db) :
    StateM (World S) β := fun w =>
  let r := f w.db
  (r.1, { w with db := r.2, calls := w.calls ++ [entry] })

/-! ## Go standard library: `strings.Split`, `strings.Join`, `strconv.Itoa`, `strconv.Atoi`

A Go string is modelled by a Lean `String`; the separator `","` is one ASCII
byte, so splitting the characters at `','` is splitting the bytes at `","`. -/

/-- Splitting a character sequence at every occurrence of `sep`: the pieces
between consecutive separators, in order, empty pieces included. -/
def splitChars (sep : Char) : List Char → List (List Char)
  | [] => [[]]
  | c :: cs =>
    if c = sep then [] :: splitChars sep cs
    else
      match splitChars sep cs with
      | [] => [[c]]
      | t :: ts => (c :: t) :: ts

/-- Go `strings.Split(s, sep)` for a one-character separator: all substrings
of `s` between separators (`n = -1`, nothing dropped). -/
def strings.Split (s : String) (sep : Char) : StringSlice :=
  (splitChars sep s.data).map String.mk

/-- Concatenation of character sequences with `sep` between neighbours. -/
def joinChars (sep : Char) : List (List Char) → List Char
  | [] => []
  | [t] => t
  | t :: u :: ts => t ++ sep :: joinChars sep (u :: ts)

/-- Go `strings.Join(elems, sep)` for a one-character separator. -/
def strings.Join (elems : StringSlice) (sep : Char) : String :=
  String.mk (joinChars sep (elems.map String.data))

/-- The decimal digit character of a number below ten (Go indexes the
string `"0123456789"`). -/
def digitChar : Nat → Char
  | 0 => '0'
  | 1 => '1'
  | 2 => '2'
  | 3 => '3'
  | 4 => '4'
  | 5 => '5'
  | 6 => '6'
  | 7 => '7'
  | 8 => '8'
  | _ => '9'

/-- The value of a decimal digit character, `none` for any other character. -/
def digitVal (c : Char) : Option Nat :=
  if c = '0' then some 0
  else if c = '1' then some 1
  else if c = '2' then some 2
  else if c = '3' then some 3
  else if c = '4' then some 4
  else if c = '5' then some 5
  else if c = '6' then some 6
  else if c = '7' then some 7
  else if c = '8' then some 8
  else if c = '9' then some 9
  else none

/-- Go `strconv.formatBits` in base ten: the digits of `u` are put in front
of `acc`, least significant first.  `fuel` bounds the number of digits, as
the fixed buffer of the Go function does. -/
def formatBits : Nat → Nat → List Char → List Char
  | 0, _, acc => acc
  | fuel + 1, u, acc =>
    if u < 10 then digitChar u :: acc
    else formatBits fuel (u / 10) (digitChar (u % 10) :: acc)

/-- The largest number of decimal digits of an unsigned 64-bit integer. -/
def maxDigits : Nat := 20

/-- Go `strconv.Itoa(i)`: the base-ten text of `i`, with a leading `-` when
`i` is negative. -/
def strconv.Itoa (i : Int) : String :=
  if i < 0 then String.mk ('-' :: formatBits maxDigits i.natAbs [])
  else String.mk (formatBits maxDigits i.natAbs [])

/-- The number denoted by a sequence of decimal digits read after `acc`;
`none` when a character is not a digit. -/
def parseDigits : List Char → Nat → Option Nat
  | [], acc => some acc
  | c :: cs, acc =>
    match digitVal c with
    | none => none
    | some d => parseDigits cs (acc * 10 + d)

/-- A non-empty sequence of decimal digits as a number. -/
def parseUint (ds : List Char) : Option Nat :=
  if ds = [] then none else parseDigits ds 0

/-- The values of the Go type `int` (64 bits). -/
def isInt (n : Int) : Prop := -9223372036854775808 ≤ n ∧ n ≤ 9223372036854775807

instance (n : Int) : Decidable (isInt n) := by
  unfold isInt
  infer_instance

/-- Go `strconv.Atoi(s)`: an optional sign followed by decimal digits, the
value being in the range of `int`; `none` stands for a non-nil error. -/
def strconv.Atoi (s : String) : Option Int :=
  match s.data with
  | '-' :: ds =>
    match parseUint ds with
    | none => none
    | some n => if isInt (-(n : Int)) then some (-(n : Int)) else none
  | '+' :: ds =>
    match parseUint ds with
    | none => none
    | some n => if isInt (n : Int) then some (n : Int) else none
  | ds =>
    match parseUint ds with
    | none => none
    | some n => if isInt (n : Int) then some (n : Int) else none

/-! ## The handlers of `UserController` -/

/-- The handler `func (u *UserController) Get(c *gin.Context)`. -/
def UserController.Get {S : Sig} (BindAndValidate : Binder S GeneralGetDto)
    (userService : UserService S) : StateM (World S) Unit := do
  let (valid, gDto) ← BindAndValidate
  if valid then
    let data ← invoke (.InfoOfId gDto) (userService.InfoOfId gDto)
    if data.Id < 1 then
      fail .ErrNoUser
      return
    resp [("result", .user data)]

/-- The handler `func (u *UserController) List(c *gin.Context)`. -/
def UserController.List {S : Sig} (BindAndValidate : Binder S S.GeneralListDto)
    (userService : UserService S) : StateM (World S) Unit := do
  let (valid, listDto) ← BindAndValidate
  if valid then
    let (data, total) ← invoke (.List listDto) (userService.List listDto)
    resp [("result", .users data), ("total", .total total)]

/-- The handler `func (u *UserController) Create(c *gin.Context)`. -/
def UserController.Create {S : Sig} (BindAndValidate : Binder S S.UserCreateDto)
    (userService : UserService S) : StateM (World S) Unit := do
  let (valid, userDto) ← BindAndValidate
  if valid then
    let created ← invoke (.Create userDto) (userService.Create userDto)
    if created.Id ≤ 0 then
      fail .ErrAddFail
    resp [("id", .int created.Id)]

/-- The handler `func (u *UserController) Edit(c *gin.Context)`; the body of its inner
`if` is commented out in the source. -/
def UserController.Edit {S : Sig} (BindAndValidate : Binder S S.UserEditDto)
    (userService : UserService S) : StateM (World S) Unit := do
  let (valid, userDto) ← BindAndValidate
  if valid then
    let affected ← invoke (.Update userDto) (userService.Update userDto)
    if affected ≤ 0 then
      pure ()
    ok "ok.UpdateDone"

/-- The handler `func (u *UserController) EditStatus(c *gin.Context)`; the body of its
inner `if` is commented out in the source. -/
def UserController.EditStatus {S : Sig} (BindAndValidate : Binder S S.UserEditStatusDto)
    (userService : UserService S) : StateM (World S) Unit := do
  let (valid, userDto) ← BindAndValidate
  if valid then
    let affected ← invoke (.UpdateStatus userDto) (userService.UpdateStatus userDto)
    if affected ≤ 0 then
      pure ()
    ok "ok.UpdateDone"

/-- The handler `func (u *UserController) EditPassword(c *gin.Context)`; the body of its
inner `if` is commented out in the source. -/
def UserController.EditPassword {S : Sig} (BindAndValidate : Binder S S.UserEditPasswordDto)
    (userService : UserService S) : StateM (World S) Unit := do
  let (valid, userDto) ← BindAndValidate
  if valid then
    let affected ← invoke (.UpdatePassword userDto) (userService.UpdatePassword userDto)
    if affected ≤ 0 then
      pure ()
    ok "ok.UpdateDone"

/-- The handler `func (u *UserController) Delete(c *gin.Context)`. -/
def UserController.Delete {S : Sig} (BindAndValidate : Binder S S.GeneralDelDto)
    (userService : UserService S) : StateM (World S) Unit := do
  let (valid, userDto) ← BindAndValidate
  if valid then
    let affected ← invoke (.Delete userDto) (userService.Delete userDto)
    if affected ≤ 0 then
      fail .ErrDelFail
      return
    ok "ok.DeletedDone"

/-- The handler `func (u *UserController) GetUserPermissions(c *gin.Context)`. -/
def UserController.GetUserPermissions {S : Sig} (BindAndValidate : Binder S GeneralGetDto)
    (userService : UserService S) : StateM (World S) Unit := do
  let (valid, gDto) ← BindAndValidate
  if valid then
    let permissions ← invoke (.GetAllPermissions (strconv.Itoa gDto.Id))
      (userService.GetAllPermissions (strconv.Itoa gDto.Id))
    resp [("result", .permissions permissions)]

/-- The handler `func (u *UserController) UpdateDepartment(c *gin.Context)`. -/
def UserController.UpdateDepartment {S : Sig}
    (BindAndValidate : Binder S (UserMoveDepartmentDto S))
    (userService : UserService S) : StateM (World S) Unit := do
  let (valid, mDto) ← BindAndValidate
  if valid then
    let err ← invoke (.MoveToAnotherDepartment (strings.Split mDto.Ids ',') mDto.Department)
      (userService.MoveToAnotherDepartment (strings.Split mDto.Ids ',') mDto.Department)
    if err.isSome then
      fail .ErrEditFail
      return
    ok "ok.UpdateDone"

/-! ## Reading a run -/

/-- Whether `BindAndValidate` returns `true` when started in `w`. -/
def accepted {S : Sig} {α : Type} (b : Binder S α) (w : World S) : Bool := (b w).1.1

/-- The dto as `BindAndValidate` leaves it. -/
def bound {S : Sig} {α : Type} (b : Binder S α) (w : World S) : α := (b w).1.2

/-- The world as `BindAndValidate` leaves it: everything the handler body
itself does comes after it. -/
def afterBind {S : Sig} {α : Type} (b : Binder S α) (w : World S) : World S := (b w).2

/-- The world a handler leaves when started in `w`. -/
def exec {S : Sig} (handler : StateM (World S) Unit) (w : World S) : World S := (handler w).2

/-! ## A concrete instance, for evaluation -/

/-- A small instantiation of the pass-through types. -/
abbrev sampleSig : Sig where
  Db := Nat
  UserFields := String
  GeneralListDto := Nat × Nat
  UserCreateDto := String
  UserEditDto := Int × String
  UserEditStatusDto := Int × Nat
  UserEditPasswordDto := Int × String
  GeneralDelDto := Int
  Users := StringSlice
  Total := Nat
  Permissions := StringSlice
  Department := String
  Failure := String

/-- The world before a request: persistent state `7`, nothing called,
nothing written. -/
def world0 : World sampleSig := { db := (7 : Nat), calls := [], written := [] }

/-- A binder that accepts and yields the dto `d`, writing nothing. -/
def bindOk (S : Sig) {α : Type} (d : α) : Binder S α := fun w => ((true, d), w)

/-- A binder that rejects: it writes the envelope `r` itself and yields the
dto `d`. -/
def bindReject (S : Sig) {α : Type} (d : α) (r : Response S) : Binder S α := fun w =>
  ((false, d), { w with written := w.written ++ [r] })

/-- The move of the users `"1,2"` to the department `"eng"`. -/
def moveTwo : UserMoveDepartmentDto sampleSig := { Ids := "1,2", Department := "eng" }

/-- The move of the users `"2,5,9"` to the department `"ops"`. -/
def moveThree : UserMoveDepartmentDto sampleSig := { Ids := "2,5,9", Department := "ops" }

/-- A move whose identifier list is the empty string. -/
def moveNone : UserMoveDepartmentDto sampleSig := { Ids := "", Department := "ops" }

/-- The envelope the rejecting binder of the examples writes; it stands for
the validation failure, whose error value is not named in `user.go`, and its
content plays no role. -/
def rejection : Response sampleSig := Response.fail ControllerError.ErrEditFail

/-- A store whose answers are fixed: fetch and insert yield an entity with
identifier `id`, the updates and the delete report `affected` rows, the
department move reports `err`, the permission resolver echoes its argument;
every call increments the persistent state. -/
def sampleService (id affected : Int) (err : Option String) : UserService sampleSig where
  InfoOfId := fun _ db => ({ Id := id, fields := "fetched" }, db + 1)
  List := fun _ db => ((["alice", "bob"], (2 : Nat)), db + 1)
  Create := fun name db => ({ Id := id, fields := name }, db + 1)
  Update := fun _ db => (affected, db + 1)
  UpdateStatus := fun _ db => (affected, db + 1)
  UpdatePassword := fun _ db => (affected, db + 1)
  Delete := fun _ db => (affected, db + 1)
  GetAllPermissions := fun uid db => (["perm-of-" ++ uid], db + 1)
  MoveToAnotherDepartment := fun _ _ db => (err, db + 1)

/-! ## Running the primitives -/

theorem resp_run {S : Sig} (data : List (String × Value S)) (w : World S) :
    resp data w = ((), { w with written := w.written ++ [Response.resp data] }) := rfl

theorem ok_run {S : Sig} (msg : String) (w : World S) :
    ok msg w = ((), { w with written := w.written ++ [Response.ok msg] }) := rfl

theorem fail_run {S : Sig} (e : ControllerError) (w : World S) :
    fail e w = ((), { w with written := w.written ++ [Response.fail e] }) := rfl

theorem invoke_run {S : Sig} {β : Type} (entry : ServiceCall S) (f : S.Db → β × S.Db)
    (w : World S) :
    invoke entry f w = ((f w.db).1, { w with db := (f w.db).2, calls := w.calls ++ [entry] }) :=
  rfl

/-! ## The handlers, one response each

The general shape of the run of each handler after a successful bind. -/

/-- After a successful bind of `Create` the success
envelope with the created identifier is always written last, and the failure
envelope is written before it when the identifier is not positive. -/
theorem Create_run {S : Sig} (b : Binder S S.UserCreateDto) (svc : UserService S) (w : World S)
    (hb : accepted b w = true) :
    (exec (UserController.Create b svc) w).written =
      (afterBind b w).written ++
        ((if (svc.Create (bound b w) (afterBind b w).db).1.Id ≤ 0
            then [Response.fail ControllerError.ErrAddFail] else []) ++
          [Response.resp [("id", Value.int (svc.Create (bound b w) (afterBind b w).db).1.Id)]]) := by
  simp only [accepted] at hb
  by_cases hid : (svc.Create (b w).1.2 (b w).2.db).1.Id ≤ 0 <;>
  simp [exec, afterBind, bound, UserController.Create, bind, StateT.bind, hb, pure, StateT.pure,
    invoke_run, fail_run, resp_run, hid]

/-- After a successful bind `List` writes exactly one response, the success
envelope with the page under `"result"` and the count under `"total"`. -/
theorem List_run {S : Sig} (b : Binder S S.GeneralListDto) (svc : UserService S) (w : World S)
    (hb : accepted b w = true) :
    (exec (UserController.List b svc) w).written =
      (afterBind b w).written ++
        [Response.resp [("result", Value.users (svc.List (bound b w) (afterBind b w).db).1.1),
          ("total", Value.total (svc.List (bound b w) (afterBind b w).db).1.2)]] := by
  simp only [accepted] at hb
  simp [exec, afterBind, bound, UserController.List, bind, StateT.bind, hb, pure, StateT.pure,
    invoke_run, resp_run]

/-! ## Get -/

/-- C3: after a successful bind, `Get` writes exactly one response, chosen by
the `Id` of the fetched entity alone: the failure `ErrNoUser` when it is below
1 (the entity is then not written), and otherwise the success envelope whose
`"result"` is the fetched entity. -/
theorem Get_response {S : Sig} (b : Binder S GeneralGetDto) (svc : UserService S) (w : World S)
    (hb : accepted b w = true) :
    ((svc.InfoOfId (bound b w) (afterBind b w).db).1.Id < 1 →
      (exec (UserController.Get b svc) w).written =
        (afterBind b w).written ++ [Response.fail ControllerError.ErrNoUser]) ∧
    (1 ≤ (svc.InfoOfId (bound b w) (afterBind b w).db).1.Id →
      (exec (UserController.Get b svc) w).written =
        (afterBind b w).written ++
          [Response.resp [("result", Value.user (svc.InfoOfId (bound b w) (afterBind b w).db).1)]]) := by
  simp only [accepted] at hb
  constructor
  · intro hid
    simp only [bound, afterBind] at hid
    simp [exec, afterBind, bound, UserController.Get, bind, StateT.bind, hb, pure, StateT.pure,
      invoke_run, fail_run, resp_run, hid]
  · intro hid
    have hid2 : ¬ (svc.InfoOfId (b w).1.2 (b w).2.db).1.Id < 1 := by
      simp only [bound, afterBind] at hid
      omega
    simp [exec, afterBind, bound, UserController.Get, bind, StateT.bind, hb, pure, StateT.pure,
      invoke_run, fail_run, resp_run, hid2]

/-- The statement C3 at a fetch that finds nothing (`Id = 0`) for the
requested identifier 5: the only response is `ErrNoUser`. -/
theorem Get_response_witness :
    accepted (bindOk sampleSig (GeneralGetDto.mk 5)) world0 = true ∧
    (exec (UserController.Get (bindOk sampleSig (GeneralGetDto.mk 5)) (sampleService 0 0 none)) world0).written =
      [Response.fail ControllerError.ErrNoUser] :=
  ⟨rfl, (Get_response (bindOk sampleSig (GeneralGetDto.mk 5)) (sampleService 0 0 none) world0 rfl).1
    (by decide)⟩

/-! ## Delete -/

/-- C6: after a successful bind, `Delete` writes exactly one response: the
failure `ErrDelFail` when the affected-count is not positive (the
acknowledgement is then not written), and otherwise the acknowledgement
`"ok.DeletedDone"`. -/
theorem Delete_response {S : Sig} (b : Binder S S.GeneralDelDto) (svc : UserService S)
    (w : World S) (hb : accepted b w = true) :
    ((svc.Delete (bound b w) (afterBind b w).db).1 ≤ 0 →
      (exec (UserController.Delete b svc) w).written =
        (afterBind b w).written ++ [Response.fail ControllerError.ErrDelFail]) ∧
    (0 < (svc.Delete (bound b w) (afterBind b w).db).1 →
      (exec (UserController.Delete b svc) w).written =
        (afterBind b w).written ++ [Response.ok "ok.DeletedDone"]) := by
  simp only [accepted] at hb
  constructor
  · intro hid
    simp only [bound, afterBind] at hid
    simp [exec, afterBind, bound, UserController.Delete, bind, StateT.bind, hb, pure, StateT.pure,
      invoke_run, fail_run, ok_run, hid]
  · intro hid
    have hid2 : ¬ (svc.Delete (b w).1.2 (b w).2.db).1 ≤ 0 := by
      simp only [bound, afterBind] at hid
      omega
    simp [exec, afterBind, bound, UserController.Delete, bind, StateT.bind, hb, pure, StateT.pure,
      invoke_run, fail_run, ok_run, hid2]

/-- The statement C6 at a delete of identifier 9 that affects no row: the only
response is `ErrDelFail`. -/
theorem Delete_response_witness :
    accepted (bindOk sampleSig (9 : Int)) world0 = true ∧
    (exec (UserController.Delete (bindOk sampleSig (9 : Int)) (sampleService 1 0 none))
      world0).written = [Response.fail ControllerError.ErrDelFail] :=
  ⟨rfl, (Delete_response (bindOk sampleSig (9 : Int)) (sampleService 1 0 none) world0
    rfl).1 (by decide)⟩

/-! ## UpdateDepartment: the response -/

/-- C4: after a successful bind, `UpdateDepartment` writes exactly one
response: the failure `ErrEditFail` if and only if `MoveToAnotherDepartment`
returns a non-nil error, and otherwise the acknowledgement `"ok.UpdateDone"`.
Neither envelope has a payload, so no identifier is reported. -/
theorem UpdateDepartment_response {S : Sig} (b : Binder S (UserMoveDepartmentDto S))
    (svc : UserService S) (w : World S) (hb : accepted b w = true) :
    ((exec (UserController.UpdateDepartment b svc) w).written =
        (afterBind b w).written ++ [Response.fail ControllerError.ErrEditFail] ↔
      (svc.MoveToAnotherDepartment (strings.Split (bound b w).Ids ',') (bound b w).Department
        (afterBind b w).db).1 ≠ none) ∧
    ((svc.MoveToAnotherDepartment (strings.Split (bound b w).Ids ',') (bound b w).Department
        (afterBind b w).db).1 = none →
      (exec (UserController.UpdateDepartment b svc) w).written =
        (afterBind b w).written ++ [Response.ok "ok.UpdateDone"]) := by
  simp only [accepted] at hb
  simp only [bound, afterBind]
  cases herr : (svc.MoveToAnotherDepartment (strings.Split (b w).1.2.Ids ',') (b w).1.2.Department
      (b w).2.db).1 with
  | none =>
    simp [exec, UserController.UpdateDepartment, bind, StateT.bind, hb, pure, StateT.pure,
      invoke_run, fail_run, ok_run, herr]
  | some e =>
    simp [exec, UserController.UpdateDepartment, bind, StateT.bind, hb, pure, StateT.pure,
      invoke_run, fail_run, ok_run, herr]

/-- The statement C4 at the move of `"1,2"` to `"eng"` where the store reports
an error: the only response is `ErrEditFail`. -/
theorem UpdateDepartment_response_witness :
    accepted (bindOk sampleSig (moveTwo)) world0 = true ∧
    (exec (UserController.UpdateDepartment (bindOk sampleSig (moveTwo))
      (sampleService 1 1 (some "no user 2"))) world0).written =
        [Response.fail ControllerError.ErrEditFail] :=
  ⟨rfl, (UpdateDepartment_response (bindOk sampleSig (moveTwo))
    (sampleService 1 1 (some "no user 2")) world0 rfl).1.2 (by decide)⟩

/-! ## Edit, EditStatus, EditPassword -/

/-- C8: after a successful bind, each of `Edit`, `EditStatus` and
`EditPassword` writes exactly one response, the acknowledgement
`"ok.UpdateDone"`, whatever affected-count the store returns. -/
theorem Edit_response {S : Sig} (svc : UserService S) (w : World S) :
    (∀ b : Binder S S.UserEditDto, accepted b w = true →
      (exec (UserController.Edit b svc) w).written =
        (afterBind b w).written ++ [Response.ok "ok.UpdateDone"]) ∧
    (∀ b : Binder S S.UserEditStatusDto, accepted b w = true →
      (exec (UserController.EditStatus b svc) w).written =
        (afterBind b w).written ++ [Response.ok "ok.UpdateDone"]) ∧
    (∀ b : Binder S S.UserEditPasswordDto, accepted b w = true →
      (exec (UserController.EditPassword b svc) w).written =
        (afterBind b w).written ++ [Response.ok "ok.UpdateDone"]) := by
  refine ⟨?_, ?_, ?_⟩
  · intro b hb
    simp only [accepted] at hb
    by_cases h : (svc.Update (b w).1.2 (b w).2.db).1 ≤ 0 <;>
    simp [exec, afterBind, UserController.Edit, bind, StateT.bind, hb, pure, StateT.pure,
      invoke_run, ok_run, h]
  · intro b hb
    simp only [accepted] at hb
    by_cases h : (svc.UpdateStatus (b w).1.2 (b w).2.db).1 ≤ 0 <;>
    simp [exec, afterBind, UserController.EditStatus, bind, StateT.bind, hb, pure, StateT.pure,
      invoke_run, ok_run, h]
  · intro b hb
    simp only [accepted] at hb
    by_cases h : (svc.UpdatePassword (b w).1.2 (b w).2.db).1 ≤ 0 <;>
    simp [exec, afterBind, UserController.EditPassword, bind, StateT.bind, hb, pure, StateT.pure,
      invoke_run, ok_run, h]

/-- The statement C8 at three edits for which the store reports zero affected
rows: each is acknowledged. -/
theorem Edit_response_witness :
    (accepted (bindOk sampleSig ((3 : Int), "carol")) world0 = true ∧
      (exec (UserController.Edit (bindOk sampleSig ((3 : Int), "carol"))
        (sampleService 3 0 none)) world0).written = [Response.ok "ok.UpdateDone"]) ∧
    (accepted (bindOk sampleSig ((3 : Int), (2 : Nat))) world0 = true ∧
      (exec (UserController.EditStatus (bindOk sampleSig ((3 : Int), (2 : Nat)))
        (sampleService 3 0 none)) world0).written = [Response.ok "ok.UpdateDone"]) ∧
    (accepted (bindOk sampleSig ((3 : Int), "secret")) world0 = true ∧
      (exec (UserController.EditPassword (bindOk sampleSig ((3 : Int), "secret"))
        (sampleService 3 0 none)) world0).written = [Response.ok "ok.UpdateDone"]) :=
  ⟨⟨rfl, (Edit_response (sampleService 3 0 none) world0).1 _ rfl⟩,
    ⟨rfl, (Edit_response (sampleService 3 0 none) world0).2.1 _ rfl⟩,
    ⟨rfl, (Edit_response (sampleService 3 0 none) world0).2.2 _ rfl⟩⟩

/-! ## A rejected bind -/

/-- C7: when `BindAndValidate` returns `false`, each of the nine handlers
leaves the world exactly as `BindAndValidate` left it: no `userService` call
is made, the persistent state is untouched and the handler writes no
response. -/
theorem rejected_bind_is_sole_outcome {S : Sig} (svc : UserService S) (w : World S) :
    (∀ b, accepted b w = false → exec (UserController.Get b svc) w = afterBind b w) ∧
    (∀ b, accepted b w = false → exec (UserController.List b svc) w = afterBind b w) ∧
    (∀ b, accepted b w = false → exec (UserController.Create b svc) w = afterBind b w) ∧
    (∀ b, accepted b w = false → exec (UserController.Edit b svc) w = afterBind b w) ∧
    (∀ b, accepted b w = false → exec (UserController.EditStatus b svc) w = afterBind b w) ∧
    (∀ b, accepted b w = false → exec (UserController.EditPassword b svc) w = afterBind b w) ∧
    (∀ b, accepted b w = false → exec (UserController.Delete b svc) w = afterBind b w) ∧
    (∀ b, accepted b w = false →
      exec (UserController.GetUserPermissions b svc) w = afterBind b w) ∧
    (∀ b, accepted b w = false →
      exec (UserController.UpdateDepartment b svc) w = afterBind b w) := by
  refine ⟨?_, ?_, ?_, ?_, ?_, ?_, ?_, ?_, ?_⟩ <;> intro b hb <;> simp only [accepted] at hb
  · simp [exec, afterBind, UserController.Get, bind, StateT.bind, hb, pure, StateT.pure]
  · simp [exec, afterBind, UserController.List, bind, StateT.bind, hb, pure, StateT.pure]
  · simp [exec, afterBind, UserController.Create, bind, StateT.bind, hb, pure, StateT.pure]
  · simp [exec, afterBind, UserController.Edit, bind, StateT.bind, hb, pure, StateT.pure]
  · simp [exec, afterBind, UserController.EditStatus, bind, StateT.bind, hb, pure, StateT.pure]
  · simp [exec, afterBind, UserController.EditPassword, bind, StateT.bind, hb, pure,
      StateT.pure]
  · simp [exec, afterBind, UserController.Delete, bind, StateT.bind, hb, pure, StateT.pure]
  · simp [exec, afterBind, UserController.GetUserPermissions, bind, StateT.bind, hb, pure,
      StateT.pure]
  · simp [exec, afterBind, UserController.UpdateDepartment, bind, StateT.bind, hb, pure,
      StateT.pure]

/-- The statement C7 at binders that reject and write `rejection`: after
`Get`, `Create` and `UpdateDepartment` the rejection is the only response, no
call was made and the persistent state is still 7. -/
theorem rejected_bind_is_sole_outcome_witness :
    (accepted (bindReject sampleSig (GeneralGetDto.mk 0) rejection) world0 = false ∧
      exec (UserController.Get (bindReject sampleSig (GeneralGetDto.mk 0) rejection)
        (sampleService 1 1 none)) world0 = { db := (7 : Nat), calls := [], written := [rejection] }) ∧
    (accepted (bindReject sampleSig "" rejection) world0 = false ∧
      exec (UserController.Create (bindReject sampleSig "" rejection)
        (sampleService 1 1 none)) world0 = { db := (7 : Nat), calls := [], written := [rejection] }) ∧
    (accepted (bindReject sampleSig moveTwo rejection) world0 = false ∧
      exec (UserController.UpdateDepartment (bindReject sampleSig moveTwo rejection)
        (sampleService 1 1 none)) world0 = { db := (7 : Nat), calls := [], written := [rejection] }) :=
  ⟨⟨rfl, (rejected_bind_is_sole_outcome (sampleService 1 1 none) world0).1 _ rfl⟩,
    ⟨rfl, (rejected_bind_is_sole_outcome (sampleService 1 1 none) world0).2.2.1 _ rfl⟩,
    ⟨rfl, (rejected_bind_is_sole_outcome (sampleService 1 1 none) world0).2.2.2.2.2.2.2.2 _ rfl⟩⟩

/-! ## Create: the failure path -/

/-- C1, evaluated: an insert that yields the identifier 0 makes `Create` write
the failure `ErrAddFail` and then the success envelope with `"id"` 0. -/
theorem Create_failed_insert_exposes_id :
    (exec (UserController.Create (bindOk sampleSig "alice") (sampleService 0 0 none))
      world0).written =
      [Response.fail ControllerError.ErrAddFail, Response.resp [("id", Value.int 0)]] :=
  rfl

/-- C2, evaluated: an insert that yields the identifier -1 makes `Create`
write two responses, the second one after the failure `ErrAddFail`. -/
theorem Create_writes_after_fail :
    (exec (UserController.Create (bindOk sampleSig "bob") (sampleService (-1) 0 none))
      world0).written.length = 2 ∧
    (exec (UserController.Create (bindOk sampleSig "bob") (sampleService (-1) 0 none))
      world0).written.head? = some (Response.fail ControllerError.ErrAddFail) ∧
    (exec (UserController.Create (bindOk sampleSig "bob") (sampleService (-1) 0 none))
      world0).written.getLast? = some (Response.resp [("id", Value.int (-1))]) :=
  ⟨rfl, rfl, rfl⟩


/-! ## `strings.Split` -/

theorem splitChars_ne_nil (sep : Char) (cs : List Char) : splitChars sep cs ≠ [] := by
  cases cs with
  | nil => simp [splitChars]
  | cons c cs =>
    by_cases h : c = sep
    · simp [splitChars, h]
    · cases hs : splitChars sep cs <;> simp [splitChars, h, hs]

theorem joinChars_cons_cons (sep c : Char) (t : List Char) (ts : List (List Char)) :
    joinChars sep ((c :: t) :: ts) = c :: joinChars sep (t :: ts) := by
  cases ts <;> simp [joinChars]

theorem joinChars_splitChars (sep : Char) (cs : List Char) :
    joinChars sep (splitChars sep cs) = cs := by
  induction cs with
  | nil => simp [splitChars, joinChars]
  | cons c cs ih =>
    cases hs : splitChars sep cs with
    | nil => exact absurd hs (splitChars_ne_nil sep cs)
    | cons t ts =>
      rw [hs] at ih
      by_cases h : c = sep
      · simp [splitChars, h, hs, joinChars, ih]
      · simp [splitChars, h, hs, joinChars_cons_cons, ih]

theorem splitChars_no_sep (sep : Char) (cs : List Char) :
    ∀ t ∈ splitChars sep cs, sep ∉ t := by
  induction cs with
  | nil => simp [splitChars]
  | cons c cs ih =>
    cases hs : splitChars sep cs with
    | nil => exact absurd hs (splitChars_ne_nil sep cs)
    | cons t ts =>
      rw [hs] at ih
      by_cases h : c = sep
      · intro u hu
        simp only [splitChars, h, if_true, hs, List.mem_cons] at hu
        rcases hu with rfl | hu
        · simp
        · exact ih u (List.mem_cons.mpr hu)
      · intro u hu
        simp only [splitChars, h, if_false, hs, List.mem_cons] at hu
        rcases hu with rfl | hu
        · have ht := ih t (List.mem_cons_self _ _)
          simp only [List.mem_cons, not_or]
          exact ⟨fun e => h e.symm, ht⟩
        · exact ih u (List.mem_cons_of_mem _ hu)

theorem splitChars_length (sep : Char) (cs : List Char) :
    (splitChars sep cs).length = cs.count sep + 1 := by
  induction cs with
  | nil => simp [splitChars]
  | cons c cs ih =>
    cases hs : splitChars sep cs with
    | nil => exact absurd hs (splitChars_ne_nil sep cs)
    | cons t ts =>
      rw [hs] at ih
      by_cases h : c = sep
      · subst h
        simp [splitChars, hs, ih]
      · simp only [splitChars, h, if_false, hs, List.length_cons] at ih ⊢
        rw [List.count_cons_of_ne (fun e => h e.symm)]
        exact ih

theorem splitChars_of_no_sep (sep : Char) (t : List Char) (h : sep ∉ t) :
    splitChars sep t = [t] := by
  induction t with
  | nil => simp [splitChars]
  | cons c t ih =>
    simp only [List.mem_cons, not_or] at h
    have hc : c ≠ sep := fun e => h.1 e.symm
    simp [splitChars, hc, ih h.2]

theorem splitChars_append_sep (sep : Char) (t rest : List Char) (h : sep ∉ t) :
    splitChars sep (t ++ sep :: rest) = t :: splitChars sep rest := by
  induction t with
  | nil => simp [splitChars]
  | cons c t ih =>
    simp only [List.mem_cons, not_or] at h
    have hc : c ≠ sep := fun e => h.1 e.symm
    simp [splitChars, hc, ih h.2]

theorem splitChars_joinChars (sep : Char) (ts : List (List Char)) (hne : ts ≠ [])
    (h : ∀ t ∈ ts, sep ∉ t) : splitChars sep (joinChars sep ts) = ts := by
  induction ts with
  | nil => exact absurd rfl hne
  | cons t ts ih =>
    cases ts with
    | nil => simpa [joinChars] using splitChars_of_no_sep sep t (h t (List.mem_cons_self _ _))
    | cons u us =>
      have ht := h t (List.mem_cons_self _ _)
      have hrest : ∀ v ∈ u :: us, sep ∉ v := fun v hv => h v (List.mem_cons_of_mem _ hv)
      simp only [joinChars]
      rw [splitChars_append_sep sep t _ ht, ih (by simp) hrest]

theorem map_mk_map_data (ts : List String) : (ts.map String.data).map String.mk = ts := by
  induction ts with
  | nil => rfl
  | cons t ts ih => rw [List.map_cons, List.map_cons, ih]

theorem map_data_map_mk (ts : List (List Char)) : (ts.map String.mk).map String.data = ts := by
  induction ts with
  | nil => rfl
  | cons t ts ih => rw [List.map_cons, List.map_cons, ih]

theorem Join_Split (s : String) (sep : Char) : strings.Join (strings.Split s sep) sep = s := by
  simp only [strings.Join, strings.Split, map_data_map_mk, joinChars_splitChars]

theorem Split_no_sep (s : String) (sep : Char) : ∀ t ∈ strings.Split s sep, sep ∉ t.data := by
  intro t ht
  simp only [strings.Split, List.mem_map] at ht
  obtain ⟨u, hu, rfl⟩ := ht
  exact splitChars_no_sep sep s.data u hu

theorem Split_length (s : String) (sep : Char) :
    (strings.Split s sep).length = s.data.count sep + 1 := by
  simp only [strings.Split, List.length_map, splitChars_length]

theorem Split_unique (s : String) (sep : Char) (ts : StringSlice) (hne : ts ≠ [])
    (hts : ∀ t ∈ ts, sep ∉ t.data) (hjoin : strings.Join ts sep = s) :
    ts = strings.Split s sep := by
  subst hjoin
  have h1 : ts.map String.data ≠ [] := by simpa using hne
  have h2 : ∀ u ∈ ts.map String.data, sep ∉ u := by
    intro u hu
    simp only [List.mem_map] at hu
    obtain ⟨t, ht, rfl⟩ := hu
    exact hts t ht
  simp only [strings.Split, strings.Join, splitChars_joinChars sep _ h1 h2, map_mk_map_data]

/-! ## UpdateDepartment: what the store receives -/

/-- After a successful bind the only call of `UpdateDepartment` is
`MoveToAnotherDepartment`, made once on the state the bind left, with the
split of `Ids` at `','` and the `Department` of the dto. -/
theorem UpdateDepartment_call {S : Sig} (b : Binder S (UserMoveDepartmentDto S))
    (svc : UserService S) (w : World S) (hb : accepted b w = true) :
    (exec (UserController.UpdateDepartment b svc) w).calls =
        (afterBind b w).calls ++
          [ServiceCall.MoveToAnotherDepartment (strings.Split (bound b w).Ids ',')
            (bound b w).Department] ∧
    (exec (UserController.UpdateDepartment b svc) w).db =
        (svc.MoveToAnotherDepartment (strings.Split (bound b w).Ids ',') (bound b w).Department
          (afterBind b w).db).2 := by
  simp only [accepted] at hb
  simp only [bound, afterBind]
  cases herr : (svc.MoveToAnotherDepartment (strings.Split (b w).1.2.Ids ',') (b w).1.2.Department
      (b w).2.db).1 <;>
  simp [exec, UserController.UpdateDepartment, bind, StateT.bind, hb, pure, StateT.pure,
    invoke_run, fail_run, ok_run, herr]

/-- C5: after a successful bind, `UpdateDepartment` calls
`MoveToAnotherDepartment` once, with the unchanged `Department` and the split
of `Ids` at `','`.  For every string the split tokens contain no comma, joined
with `","` they give the string back character for character (so order is
kept and empty tokens are kept), and they are the only non-empty sequence of
comma-free tokens that does so; `"2,5,9"` gives `["2","5","9"]` and `"1,,2"`
gives `["1","","2"]`. -/
theorem UpdateDepartment_passes_split {S : Sig} (b : Binder S (UserMoveDepartmentDto S))
    (svc : UserService S) (w : World S) (hb : accepted b w = true) :
    ((exec (UserController.UpdateDepartment b svc) w).calls =
        (afterBind b w).calls ++
          [ServiceCall.MoveToAnotherDepartment (strings.Split (bound b w).Ids ',')
            (bound b w).Department] ∧
      (exec (UserController.UpdateDepartment b svc) w).db =
        (svc.MoveToAnotherDepartment (strings.Split (bound b w).Ids ',') (bound b w).Department
          (afterBind b w).db).2) ∧
    (∀ ids : String,
      strings.Join (strings.Split ids ',') ',' = ids ∧
      (∀ t ∈ strings.Split ids ',', ',' ∉ t.data) ∧
      (∀ ts : StringSlice, ts ≠ [] → (∀ t ∈ ts, ',' ∉ t.data) → strings.Join ts ',' = ids →
        ts = strings.Split ids ',')) ∧
    strings.Split "2,5,9" ',' = ["2", "5", "9"] ∧
    strings.Split "1,,2" ',' = ["1", "", "2"] :=
  ⟨UpdateDepartment_call b svc w hb,
    fun ids => ⟨Join_Split ids ',', Split_no_sep ids ',', fun ts hne hts hj =>
      Split_unique ids ',' ts hne hts hj⟩,
    by decide, by decide⟩

/-- The statement C5 at the move of `"2,5,9"` to `"ops"`: the store is called
once, with the three tokens in order and the department `"ops"`. -/
theorem UpdateDepartment_passes_split_witness :
    accepted (bindOk sampleSig moveThree) world0 = true ∧
    (exec (UserController.UpdateDepartment (bindOk sampleSig moveThree) (sampleService 1 1 none))
      world0).calls = [ServiceCall.MoveToAnotherDepartment ["2", "5", "9"] "ops"] :=
  ⟨rfl, (UpdateDepartment_passes_split (bindOk sampleSig moveThree) (sampleService 1 1 none)
    world0 rfl).1.1⟩

/-- C10: after a successful bind, the token list `UpdateDepartment` hands to
the store has exactly one more element than `Ids` has commas, so it is never
empty; when `Ids` is the empty string the store is still called, with the
one-element list `[""]`. -/
theorem UpdateDepartment_token_count {S : Sig} (b : Binder S (UserMoveDepartmentDto S))
    (svc : UserService S) (w : World S) (hb : accepted b w = true) :
    (exec (UserController.UpdateDepartment b svc) w).calls =
        (afterBind b w).calls ++
          [ServiceCall.MoveToAnotherDepartment (strings.Split (bound b w).Ids ',')
            (bound b w).Department] ∧
    (strings.Split (bound b w).Ids ',').length = (bound b w).Ids.data.count ',' + 1 ∧
    strings.Split (bound b w).Ids ',' ≠ [] ∧
    ((bound b w).Ids = "" →
      (exec (UserController.UpdateDepartment b svc) w).calls =
        (afterBind b w).calls ++
          [ServiceCall.MoveToAnotherDepartment [""] (bound b w).Department]) := by
  have hcall := (UpdateDepartment_call b svc w hb).1
  have hlen := Split_length (bound b w).Ids ','
  refine ⟨hcall, hlen, ?_, ?_⟩
  · intro hnil
    rw [hnil] at hlen
    simp at hlen
  · intro hempty
    rw [hcall, hempty]
    rfl

/-- The statement C10 at a move whose `Ids` is the empty string: the store is
called once, with the list `[""]`. -/
theorem UpdateDepartment_token_count_witness :
    accepted (bindOk sampleSig moveNone) world0 = true ∧
    (bound (bindOk sampleSig moveNone) world0).Ids = "" ∧
    (exec (UserController.UpdateDepartment (bindOk sampleSig moveNone) (sampleService 1 1 none))
      world0).calls = [ServiceCall.MoveToAnotherDepartment [""] "ops"] :=
  ⟨rfl, rfl, (UpdateDepartment_token_count (bindOk sampleSig moveNone) (sampleService 1 1 none)
    world0 rfl).2.2.2 rfl⟩


/-! ## `strconv.Itoa` -/

theorem digitVal_digitChar (d : Nat) (h : d < 10) : digitVal (digitChar d) = some d := by
  interval_cases d <;> rfl

theorem digitChar_isDigit (d : Nat) : (digitChar d).isDigit = true := by
  unfold digitChar
  split <;> rfl

theorem digitChar_ne_zero (d : Nat) (h1 : 1 ≤ d) (h : d < 10) : digitChar d ≠ '0' := by
  interval_cases d <;> decide

theorem formatBits_acc (fuel u : Nat) (acc : List Char) :
    formatBits fuel u acc = formatBits fuel u [] ++ acc := by
  induction fuel generalizing u acc with
  | zero => simp [formatBits]
  | succ fuel ih =>
    by_cases h : u < 10
    · simp [formatBits, h]
    · simp only [formatBits, h, if_false]
      rw [ih (u / 10) (digitChar (u % 10) :: acc), ih (u / 10) [digitChar (u % 10)]]
      simp

theorem parseDigits_append (xs ys : List Char) (acc : Nat) :
    parseDigits (xs ++ ys) acc = (parseDigits xs acc).bind (fun a => parseDigits ys a) := by
  induction xs generalizing acc with
  | nil => simp [parseDigits]
  | cons c cs ih =>
    cases hc : digitVal c with
    | none => simp [parseDigits, hc]
    | some d => simp [parseDigits, hc, ih]

theorem parseDigits_formatBits (fuel u : Nat) (h : u < 10 ^ fuel) :
    parseDigits (formatBits fuel u []) 0 = some u := by
  induction fuel generalizing u with
  | zero =>
    have : u = 0 := by simpa using h
    subst this
    rfl
  | succ fuel ih =>
    by_cases hu : u < 10
    · simp [formatBits, hu, parseDigits, digitVal_digitChar u hu]
    · have hdiv : u / 10 < 10 ^ fuel := by
        rw [Nat.div_lt_iff_lt_mul (by decide)]
        rw [pow_succ] at h
        exact h
      simp only [formatBits, hu, if_false]
      rw [formatBits_acc, parseDigits_append, ih (u / 10) hdiv]
      simp only [Option.some_bind, parseDigits, digitVal_digitChar (u % 10) (Nat.mod_lt _ (by decide))]
      congr 1
      omega

theorem formatBits_head (fuel u : Nat) (acc : List Char) (h : u < 10 ^ fuel) (hf : 0 < fuel) :
    ∃ d rest, d < 10 ∧ (0 < u → 1 ≤ d) ∧ formatBits fuel u acc = digitChar d :: rest := by
  induction fuel generalizing u acc with
  | zero => exact absurd hf (by decide)
  | succ fuel ih =>
    by_cases hu : u < 10
    · exact ⟨u, acc, hu, fun hpos => hpos, by simp [formatBits, hu]⟩
    · have hdiv : u / 10 < 10 ^ fuel := by
        rw [Nat.div_lt_iff_lt_mul (by decide)]
        rw [pow_succ] at h
        exact h
      have hpos : 0 < u / 10 := Nat.div_pos (by omega) (by decide)
      have hfuel : 0 < fuel := by
        rcases Nat.eq_zero_or_pos fuel with h0 | h0
        · subst h0
          simp at hdiv
          omega
        · exact h0
      obtain ⟨d, rest, hd, hd1, heq⟩ := ih (u / 10) (digitChar (u % 10) :: acc) hdiv hfuel
      exact ⟨d, rest, hd, fun _ => hd1 hpos, by simp [formatBits, hu, heq]⟩

theorem formatBits_digits (fuel u : Nat) (acc : List Char) :
    ∀ c ∈ formatBits fuel u acc, c.isDigit = true ∨ c ∈ acc := by
  induction fuel generalizing u acc with
  | zero =>
    intro c hc
    exact Or.inr hc
  | succ fuel ih =>
    intro c hc
    by_cases hu : u < 10
    · simp only [formatBits, hu, if_true, List.mem_cons] at hc
      rcases hc with rfl | hc
      · exact Or.inl (digitChar_isDigit u)
      · exact Or.inr hc
    · simp only [formatBits, hu, if_false] at hc
      rcases ih (u / 10) _ c hc with h | h
      · exact Or.inl h
      · rcases List.mem_cons.mp h with rfl | h
        · exact Or.inl (digitChar_isDigit _)
        · exact Or.inr h

theorem natAbs_lt_of_isInt (i : Int) (hi : isInt i) : i.natAbs < 10 ^ maxDigits := by
  unfold isInt at hi
  have : (10 : Nat) ^ maxDigits = 100000000000000000000 := by decide
  rw [this]
  omega

theorem parseUint_formatBits (u : Nat) (h : u < 10 ^ maxDigits) :
    parseUint (formatBits maxDigits u []) = some u := by
  obtain ⟨d, rest, _, _, heq⟩ := formatBits_head maxDigits u [] h (by decide)
  have hne : formatBits maxDigits u [] ≠ [] := by simp [heq]
  simp only [parseUint, hne, if_false]
  exact parseDigits_formatBits maxDigits u h

theorem Atoi_Itoa (i : Int) (hi : isInt i) : strconv.Atoi (strconv.Itoa i) = some i := by
  have hlt := natAbs_lt_of_isInt i hi
  have hparse := parseUint_formatBits i.natAbs hlt
  by_cases hneg : i < 0
  · have hval : -(i.natAbs : Int) = i := by omega
    simp only [strconv.Itoa, hneg, if_true, strconv.Atoi, hparse, hval, hi]
  · obtain ⟨d, rest, hd, _, heq⟩ := formatBits_head maxDigits i.natAbs [] hlt (by decide)
    have hval : (i.natAbs : Int) = i := by omega
    rw [heq] at hparse
    simp only [strconv.Itoa, hneg, if_false, heq]
    interval_cases d <;>
      simp only [digitChar] at hparse ⊢ <;>
      simp [strconv.Atoi, hparse, hval, hi]

theorem Itoa_shape (i : Int) (hi : isInt i) :
    ∃ ds : List Char, (strconv.Itoa i).data = (if i < 0 then ['-'] else []) ++ ds ∧ ds ≠ [] ∧
      (∀ c ∈ ds, c.isDigit = true) ∧ (ds.head? = some '0' → ds = ['0']) := by
  have hlt := natAbs_lt_of_isInt i hi
  obtain ⟨d, rest, hd, hd1, heq⟩ := formatBits_head maxDigits i.natAbs [] hlt (by decide)
  refine ⟨formatBits maxDigits i.natAbs [], ?_, ?_, ?_, ?_⟩
  · by_cases hneg : i < 0 <;> simp [strconv.Itoa, hneg]
  · simp [heq]
  · intro c hc
    rcases formatBits_digits maxDigits i.natAbs [] c hc with h | h
    · exact h
    · exact absurd h (List.not_mem_nil c)
  · intro hhead
    have hzero : i.natAbs = 0 := by
      by_contra hnz
      have h1 : 1 ≤ d := hd1 (Nat.pos_of_ne_zero hnz)
      rw [heq] at hhead
      simp only [List.head?_cons, Option.some.injEq] at hhead
      exact digitChar_ne_zero d h1 hd hhead
    rw [hzero]
    rfl

/-! ## GetUserPermissions -/

/-- C9: after a successful bind, `GetUserPermissions` calls
`GetAllPermissions` exactly once, with `strconv.Itoa` of the bound `Id`, and
writes exactly one response, the success envelope whose `"result"` is what the
resolver returned; there is no other path.  For every value `i` of the type
`int`, `strconv.Itoa i` is an optional `-` (present exactly when `i < 0`)
followed by a non-empty run of decimal digits with no leading zero (unless it
is `"0"`), and `strconv.Atoi` reads it back as `i`. -/
theorem GetUserPermissions_response {S : Sig} (b : Binder S GeneralGetDto) (svc : UserService S)
    (w : World S) (hb : accepted b w = true) :
    ((exec (UserController.GetUserPermissions b svc) w).calls =
        (afterBind b w).calls ++ [ServiceCall.GetAllPermissions (strconv.Itoa (bound b w).Id)] ∧
      (exec (UserController.GetUserPermissions b svc) w).written =
        (afterBind b w).written ++
          [Response.resp [("result", Value.permissions
            (svc.GetAllPermissions (strconv.Itoa (bound b w).Id) (afterBind b w).db).1)]]) ∧
    (∀ i : Int, isInt i →
      strconv.Atoi (strconv.Itoa i) = some i ∧
      ∃ ds : List Char, (strconv.Itoa i).data = (if i < 0 then ['-'] else []) ++ ds ∧ ds ≠ [] ∧
        (∀ c ∈ ds, c.isDigit = true) ∧ (ds.head? = some '0' → ds = ['0'])) := by
  simp only [accepted] at hb
  refine ⟨⟨?_, ?_⟩, fun i hi => ⟨Atoi_Itoa i hi, Itoa_shape i hi⟩⟩
  · simp [exec, afterBind, bound, UserController.GetUserPermissions, bind, StateT.bind, hb, pure,
      StateT.pure, invoke_run, resp_run]
  · simp [exec, afterBind, bound, UserController.GetUserPermissions, bind, StateT.bind, hb, pure,
      StateT.pure, invoke_run, resp_run]

/-- The statement C9 at the identifier -5: the resolver is called once, with
`"-5"`, its answer is the only response, and `"-5"` reads back as -5. -/
theorem GetUserPermissions_response_witness :
    accepted (bindOk sampleSig (GeneralGetDto.mk (-5))) world0 = true ∧
    (exec (UserController.GetUserPermissions (bindOk sampleSig (GeneralGetDto.mk (-5)))
      (sampleService 1 1 none)) world0).calls = [ServiceCall.GetAllPermissions "-5"] ∧
    (exec (UserController.GetUserPermissions (bindOk sampleSig (GeneralGetDto.mk (-5)))
      (sampleService 1 1 none)) world0).written =
        [Response.resp [("result", Value.permissions ["perm-of--5"])]] ∧
    isInt (-5) ∧ strconv.Atoi (strconv.Itoa (-5)) = some (-5) :=
  ⟨rfl,
    (GetUserPermissions_response (bindOk sampleSig (GeneralGetDto.mk (-5)))
      (sampleService 1 1 none) world0 rfl).1.1,
    (GetUserPermissions_response (bindOk sampleSig (GeneralGetDto.mk (-5)))
      (sampleService 1 1 none) world0 rfl).1.2,
    by decide,
    ((GetUserPermissions_response (bindOk sampleSig (GeneralGetDto.mk (-5)))
      (sampleService 1 1 none) world0 rfl).2 (-5) (by decide)).1⟩

end Zeus
